import Mathlib

/-!
Verification development for the compatify dependency-compatibility core:
the dependency graph (`dependencyGraph.js`), the compatibility checker
(`compatibilityChecker.js`) and the dependency-extraction step of the
package parser (`packageParser.js`), shallowly embedded in Lean.

JavaScript `Map`s are modelled as insertion-ordered association lists
(`Map.set` overwrites in place or appends at the end, exactly as the JS
semantics); plain objects used as string-keyed records are likewise
association lists with unique keys.  The semver library is external to the
repository, so range satisfaction is a parameter (`sat : String → String →
Bool`); where the source wraps a semver call in `try/catch`
(`_evaluateCondition`) the parameter is an `Option Bool`-valued oracle whose
`none` models a thrown evaluation error.  Absent string-valued JS fields are
modelled as `""` (both are falsy under `||`/truthiness tests in the source).
-/

namespace Compatify

/-- Lookup in an insertion-ordered association list (JS `Map.get` /
object property read). -/
def lookupA {α : Type} (l : List (String × α)) (k : String) : Option α :=
  match l with
  | [] => none
  | (k', v) :: rest => if k' = k then some v else lookupA rest k

/-- `Map.set k v`: overwrite in place when the key is present, else append. -/
def setA {α : Type} (k : String) (v : α) (l : List (String × α)) :
    List (String × α) :=
  match l with
  | [] => [(k, v)]
  | (k', v') :: rest => if k' = k then (k, v) :: rest else (k', v') :: setA k v rest

/-- A node of the dependency graph, as stored by `addNode` in
`dependencyGraph.js` (all defaulting applied there). -/
structure Node where
  name : String
  version : String
  peerDependencies : List (String × String)
  engines : List (String × String)
  type : String
  deprecated : Bool
  optional : Bool
  dev : Bool
  deriving DecidableEq, Repr

/-- The metadata object passed to `addNode` (and, for installed packages,
produced by the parser).  `type := ""` models an absent `type` field;
`dependencies` is read by `buildFromProject` for transitive edges but is
not stored on the node. -/
structure Metadata where
  version : String := ""
  peerDependencies : List (String × String) := []
  engines : List (String × String) := []
  type : String := ""
  deprecated : Bool := false
  optional : Bool := false
  dev : Bool := false
  dependencies : List (String × String) := []
  deriving DecidableEq, Repr

/-- A directed dependency edge stored in the `edges` map (`{to, versionRange}`). -/
structure Edge where
  toPkg : String
  versionRange : String
  deriving DecidableEq, Repr

/-- The dependency graph: `nodes` and `edges` are JS `Map`s. -/
structure DepGraph where
  nodes : List (String × Node) := []
  edges : List (String × List Edge) := []
  deriving DecidableEq, Repr

/-- The node value built by `addNode` from a metadata object, with the
source's defaults (`|| {}`, `|| 'commonjs'`, `|| false`). -/
def mkNode (name : String) (metadata : Metadata) : Node :=
  { name := name
    version := metadata.version
    peerDependencies := metadata.peerDependencies
    engines := metadata.engines
    type := if metadata.type = "" then "commonjs" else metadata.type
    deprecated := metadata.deprecated
    optional := metadata.optional
    dev := metadata.dev }

/-- `addNode(name, metadata)`: `this.nodes.set(name, {...})`. -/
def addNode (g : DepGraph) (name : String) (metadata : Metadata) : DepGraph :=
  { g with nodes := setA name (mkNode name metadata) g.nodes }

/-- `addEdge(from, to, versionRange)`: ensure the source's entry exists,
then push `{to, versionRange}` onto its edge list. -/
def addEdge (g : DepGraph) (fromPkg toPkg versionRange : String) : DepGraph :=
  let cur := (lookupA g.edges fromPkg).getD []
  { g with edges := setA fromPkg (cur ++ [⟨toPkg, versionRange⟩]) g.edges }

/-- `getNode(packageName)`: `Map.get`, `null` modelled as `none`. -/
def getNode (g : DepGraph) (packageName : String) : Option Node :=
  lookupA g.nodes packageName

/-- `getDependencies(packageName)`: the stored edge list, or `[]`. -/
def getDependencies (g : DepGraph) (packageName : String) : List Edge :=
  (lookupA g.edges packageName).getD []

/-- `getAllPackages()`: all node names except the synthetic root. -/
def getAllPackages (g : DepGraph) : List String :=
  (g.nodes.map Prod.fst).filter (fun name => name ≠ "__root__")

/-- `getStats()` result shape. -/
structure Stats where
  totalPackages : Nat
  directDependencies : Nat
  transitiveDependencies : Int
  devDependencies : Nat
  optionalDependencies : Nat
  deriving DecidableEq, Repr

/-- `getStats()`: counts over nodes plus the root's out-degree
(`transitiveDependencies` is the source's subtraction, which can go
negative in JS, hence `Int`). -/
def getStats (g : DepGraph) : Stats :=
  let packages := getAllPackages g
  let directDeps := (getDependencies g "__root__").length
  { totalPackages := packages.length
    directDependencies := directDeps
    transitiveDependencies := (packages.length : Int) - (directDeps : Int)
    devDependencies := (packages.filter
      (fun p => ((getNode g p).map Node.dev).getD false)).length
    optionalDependencies := (packages.filter
      (fun p => ((getNode g p).map Node.optional).getD false)).length }

/-- Project metadata as consumed by `buildFromProject` and the checker
(parser output `{name, version, engines, type, workspaces}`). -/
structure ProjMeta where
  name : String := ""
  version : String := ""
  engines : List (String × String) := []
  type : String := ""
  deriving DecidableEq, Repr

/-- The `dependencies` component of parsed project data
(`extractDependencies` output). -/
structure Dependencies where
  dependencies : List (String × String) := []
  devDependencies : List (String × String) := []
  peerDependencies : List (String × String) := []
  optionalDependencies : List (String × String) := []
  all : List (String × String) := []
  deriving DecidableEq, Repr

/-- Parsed project data (`parseProject` output shape, the parts
`buildFromProject` reads). -/
structure ProjectData where
  metadata : ProjMeta
  dependencies : Dependencies := {}
  installed : List (String × Metadata) := []
  deriving DecidableEq, Repr

/-- JS object spread `{...xs, ...ys}` on string-keyed records: keys keep
their first-occurrence position, a key present in both takes `ys`'s value,
and keys only in `ys` are appended in order. -/
def spreadMerge (xs ys : List (String × String)) : List (String × String) :=
  xs.map (fun p => (p.1, (lookupA ys p.1).getD p.2)) ++
    ys.filter (fun p => ¬ p.1 ∈ xs.map Prod.fst)

/-- `extractDependencies` from `packageParser.js`: the four sections plus
`all = {...dependencies, ...devDependencies, ...optionalDependencies}`
(peer dependencies excluded from the merge). -/
def extractDependencies (dependencies devDependencies peerDependencies
    optionalDependencies : List (String × String)) : Dependencies :=
  { dependencies := dependencies
    devDependencies := devDependencies
    peerDependencies := peerDependencies
    optionalDependencies := optionalDependencies
    all := spreadMerge (spreadMerge dependencies devDependencies) optionalDependencies }

/-- `buildFromProject(projectData)`: root node, one node per installed
package, root edges from `dependencies.all`, then transitive edges from
each installed package's own `dependencies`. -/
def buildFromProject (pd : ProjectData) : DepGraph :=
  let g0 : DepGraph := {}
  let g1 := addNode g0 "__root__"
    { version := pd.metadata.version
      engines := pd.metadata.engines
      type := pd.metadata.type }
  let g2 := pd.installed.foldl (fun g nm => addNode g nm.1 nm.2) g1
  let g3 := pd.dependencies.all.foldl (fun g nr => addEdge g "__root__" nr.1 nr.2) g2
  pd.installed.foldl
    (fun g nm => nm.2.dependencies.foldl (fun g dr => addEdge g nm.1 dr.1 dr.2) g) g3

/-- The recursive `dfs` closure of `findPaths`, compiled to structural
recursion on the remaining depth budget: a call at JS depth `d` carries
`remaining = maxDepth + 1 - d`, so `remaining = 0` is exactly the source's
`depth > maxDepth` early return.  `visited` is the source's backtracking
set: each call removes what it added, so passing it functionally is exact. -/
def dfsPaths (g : DepGraph) (tgt : String) :
    Nat → String → List String → List String → List (List String)
  | 0, _, _, _ => []
  | remaining + 1, current, path, visited =>
    if current = tgt then [path ++ [current]]
    else if current ∈ visited then []
    else
      ((getDependencies g current).map
        (fun e => dfsPaths g tgt remaining e.toPkg (path ++ [current])
          (current :: visited))).flatten

/-- `findPaths(from, to, maxDepth = 10)`: `dfs(from, [], 0)` with
`visited = ∅`. -/
def findPaths (g : DepGraph) (fromPkg toPkg : String) (maxDepth : Nat := 10) :
    List (List String) :=
  dfsPaths g toPkg (maxDepth + 1) fromPkg [] []

/-- An issue record produced by the checker.  Each issue type sets a subset
of the fields; `""` models a field the source leaves absent. -/
structure Issue where
  type : String := ""
  severity : String := ""
  package : String := ""
  peerPackage : String := ""
  requiredVersion : String := ""
  installedVersion : String := ""
  version : String := ""
  incompatiblePackage : String := ""
  incompatibleVersion : String := ""
  message : String := ""
  replacement : String := ""
  compatibleVersion : String := ""
  fix : String := ""
  requiredNodeVersion : String := ""
  currentNodeVersion : String := ""
  eolDate : String := ""
  deriving DecidableEq, Repr

/-- `incompatibleWith` entry of an incompatibility rule. -/
structure IncompatEntry where
  package : String := ""
  versionRange : String := ""
  severity : String := ""
  reason : String := ""
  fix : String := ""
  deriving DecidableEq, Repr

/-- `warnings` entry of a rule (`condition` is an engine-version predicate
string; `""` models an absent/falsy condition). -/
structure WarningEntry where
  condition : String := ""
  severity : String := ""
  message : String := ""
  deriving DecidableEq, Repr

/-- An entry of `rules.rules`: package + version gate + incompatibilities +
warnings. -/
structure Rule where
  package : String := ""
  version : String := ""
  incompatibleWith : List IncompatEntry := []
  warnings : List WarningEntry := []
  deriving DecidableEq, Repr

/-- An entry of `rules.deprecated`. -/
structure DeprecationRule where
  package : String := ""
  severity : String := ""
  reason : String := ""
  replacement : String := ""
  fix : String := ""
  deriving DecidableEq, Repr

/-- An entry of `rules.esm`. -/
structure EsmRule where
  package : String := ""
  version : String := ""
  severity : String := ""
  message : String := ""
  compatibleVersion : String := ""
  deriving DecidableEq, Repr

/-- An entry of the `rules.engineRequirements.node` lifecycle table. -/
structure NodeLifecycle where
  status : String := ""
  severity : String := ""
  eolDate : String := ""
  message : String := ""
  deriving DecidableEq, Repr

/-- The loaded rules store (`rules.json` shape).  An absent section is
modelled as the empty list, which the source's `if (!section) return;`
guards make behaviourally identical. -/
structure RulesStore where
  rules : List Rule := []
  deprecated : List DeprecationRule := []
  esm : List EsmRule := []
  engineNode : List (Nat × NodeLifecycle) := []
  deriving DecidableEq, Repr

/-- Character class `[<>=!]` of the condition regex. -/
def opChar (c : Char) : Bool :=
  c = '<' || c = '>' || c = '=' || c = '!'

/-- JS `.` (no `s` flag) rejects line terminators. -/
def lineTerm (c : Char) : Bool :=
  c = '\n' || c = '\r' || c = ' ' || c = ' '

/-- The match `condition.match(/^node([<>=!]+)(.+)$/)` of
`_evaluateCondition`, returning the two capture groups.  The first group is
greedy over `[<>=!]`, backtracking one character when `(.+)` would
otherwise be empty; `(.+)` rejects line terminators. -/
def parseCondition (condition : String) : Option (String × String) :=
  let cs := condition.data
  if ("node".data).isPrefixOf cs then
    let rest := cs.drop 4
    let ops := rest.takeWhile opChar
    let ver := rest.dropWhile opChar
    if ops = [] then none
    else if ver ≠ [] then
      if ver.any lineTerm then none else some (⟨ops⟩, ⟨ver⟩)
    else if 2 ≤ ops.length then
      some (⟨ops.dropLast⟩, ⟨ops.drop (ops.length - 1)⟩)
    else none
  else none

/-- `_evaluateCondition(condition)`: parse failure returns `false`; the
`try { semver.satisfies(...) } catch { return false }` is the
`Option`-valued oracle `satMaybe` with `none` (a thrown error) defaulted to
`false`. -/
def evaluateCondition (satMaybe : String → String → Option Bool)
    (currentVersion condition : String) : Bool :=
  match parseCondition condition with
  | none => false
  | some (op, ver) => (satMaybe currentVersion (op ++ ver)).getD false

/-- The `missing-peer-dependency` issue of `checkPeerDependencies`. -/
def mkMissingPeerIssue (packageName : String) (node : Node)
    (peerName peerRange : String) : Issue :=
  { type := "missing-peer-dependency"
    severity := "error"
    package := packageName
    peerPackage := peerName
    requiredVersion := peerRange
    message := packageName ++ "@" ++ node.version ++ " requires peer dependency "
      ++ peerName ++ "@" ++ peerRange ++ " but it is not installed"
    fix := "npm install " ++ peerName ++ "@" ++ peerRange }

/-- The `peer-dependency-mismatch` issue of `checkPeerDependencies`. -/
def mkPeerMismatchIssue (packageName : String) (node : Node)
    (peerName peerRange : String) (peerNode : Node) : Issue :=
  { type := "peer-dependency-mismatch"
    severity := "error"
    package := packageName
    peerPackage := peerName
    requiredVersion := peerRange
    installedVersion := peerNode.version
    message := packageName ++ "@" ++ node.version ++ " requires " ++ peerName
      ++ "@" ++ peerRange ++ " but found " ++ peerName ++ "@" ++ peerNode.version
    fix := "npm install " ++ peerName ++ "@" ++ peerRange }

/-- `checkPeerDependencies(graph)`, parameterised by the semver
`satisfies` relation. -/
def checkPeerDependencies (sat : String → String → Bool) (g : DepGraph) :
    List Issue :=
  ((getAllPackages g).map (fun packageName =>
    match getNode g packageName with
    | none => []
    | some node =>
      (node.peerDependencies.map (fun pr =>
        match getNode g pr.1 with
        | none => [mkMissingPeerIssue packageName node pr.1 pr.2]
        | some peerNode =>
          if sat peerNode.version pr.2 then []
          else [mkPeerMismatchIssue packageName node pr.1 pr.2 peerNode])).flatten)).flatten

/-- The `version-incompatibility` issue of `checkVersionIncompatibilities`. -/
def mkVersionIncompatIssue (rule : Rule) (node : Node) (inc : IncompatEntry)
    (incompatNode : Node) : Issue :=
  { type := "version-incompatibility"
    severity := if inc.severity = "" then "error" else inc.severity
    package := rule.package
    version := node.version
    incompatiblePackage := inc.package
    incompatibleVersion := incompatNode.version
    message := inc.reason
    fix := inc.fix }

/-- The `compatibility-warning` issue of `checkVersionIncompatibilities`. -/
def mkCompatWarningIssue (rule : Rule) (node : Node) (w : WarningEntry) : Issue :=
  { type := "compatibility-warning"
    severity := if w.severity = "" then "warning" else w.severity
    package := rule.package
    version := node.version
    message := w.message }

/-- `checkVersionIncompatibilities(graph)`: per gated rule, incompatibility
issues then condition-gated warnings. -/
def checkVersionIncompatibilities (sat : String → String → Bool)
    (satMaybe : String → String → Option Bool) (currentNodeVersion : String)
    (rules : RulesStore) (g : DepGraph) : List Issue :=
  (rules.rules.map (fun rule =>
    match getNode g rule.package with
    | none => []
    | some node =>
      if sat node.version rule.version then
        (rule.incompatibleWith.map (fun inc =>
          match getNode g inc.package with
          | none => []
          | some incompatNode =>
            if sat incompatNode.version inc.versionRange then
              [mkVersionIncompatIssue rule node inc incompatNode]
            else [])).flatten
        ++ (rule.warnings.map (fun w =>
          if w.condition = "" then []
          else if evaluateCondition satMaybe currentNodeVersion w.condition then
            [mkCompatWarningIssue rule node w]
          else [])).flatten
      else [])).flatten

/-- The `deprecated-package` issue of `checkDeprecatedPackages` (severity
from the rule, default `warning`; the rule's `replacement` copied through). -/
def mkDeprecatedIssue (dep : DeprecationRule) (node : Node) : Issue :=
  { type := "deprecated-package"
    severity := if dep.severity = "" then "warning" else dep.severity
    package := dep.package
    version := node.version
    message := dep.reason
    replacement := dep.replacement
    fix := dep.fix }

/-- The loop body of `checkDeprecatedPackages`: the issues one deprecation
rule contributes (`continue` when the package has no node). -/
def depIssueFor (g : DepGraph) (dep : DeprecationRule) : List Issue :=
  match getNode g dep.package with
  | none => []
  | some node => [mkDeprecatedIssue dep node]

/-- `checkDeprecatedPackages(graph)`: one issue per deprecation rule whose
package is a node, no version gating. -/
def checkDeprecatedPackages (rules : RulesStore) (g : DepGraph) : List Issue :=
  (rules.deprecated.map (depIssueFor g)).flatten

/-- The `esm-commonjs-conflict` issue of `checkESMCompatibility` (severity
from the rule, default `error`). -/
def mkEsmIssue (esmRule : EsmRule) (node : Node) : Issue :=
  { type := "esm-commonjs-conflict"
    severity := if esmRule.severity = "" then "error" else esmRule.severity
    package := esmRule.package
    version := node.version
    message := esmRule.message
    compatibleVersion := esmRule.compatibleVersion
    fix := "npm install " ++ esmRule.package ++ "@" ++ esmRule.compatibleVersion }

/-- `checkESMCompatibility(graph, projectMetadata)`: returns early unless
the project type (defaulted to `commonjs`) is exactly `commonjs`. -/
def checkESMCompatibility (sat : String → String → Bool) (rules : RulesStore)
    (g : DepGraph) (projectMetadata : ProjMeta) : List Issue :=
  let projectType := if projectMetadata.type = "" then "commonjs" else projectMetadata.type
  if projectType ≠ "commonjs" then []
  else
    (rules.esm.map (fun esmRule =>
      match getNode g esmRule.package with
      | none => []
      | some node =>
        if sat node.version esmRule.version then [mkEsmIssue esmRule node]
        else [])).flatten

/-- `checkEngineRequirements(graph, projectMetadata)`: project engine range,
per-package engine ranges, then the EOL lifecycle table (`major` is the
semver `major` oracle, `currentNodeVersion` the stripped `process.version`). -/
def checkEngineRequirements (sat : String → String → Bool) (major : String → Nat)
    (currentNodeVersion : String) (rules : RulesStore) (g : DepGraph)
    (projectMetadata : ProjMeta) : List Issue :=
  (match lookupA projectMetadata.engines "node" with
   | none => []
   | some required =>
     if sat currentNodeVersion required then []
     else
       [{ type := "engine-mismatch"
          severity := "error"
          package := projectMetadata.name
          requiredNodeVersion := required
          currentNodeVersion := currentNodeVersion
          message := "Project requires Node.js " ++ required
            ++ " but current version is " ++ currentNodeVersion }])
  ++ ((getAllPackages g).map (fun packageName =>
      match getNode g packageName with
      | none => []
      | some node =>
        match lookupA node.engines "node" with
        | none => []
        | some required =>
          if sat currentNodeVersion required then []
          else
            [{ type := "engine-mismatch"
               severity := "warning"
               package := packageName
               version := node.version
               requiredNodeVersion := required
               currentNodeVersion := currentNodeVersion
               message := packageName ++ "@" ++ node.version ++ " requires Node.js "
                 ++ required ++ " but current version is " ++ currentNodeVersion }])).flatten
  ++ (match (rules.engineNode.find? (fun p => p.1 = major currentNodeVersion)).map Prod.snd with
      | none => []
      | some nodeInfo =>
        if nodeInfo.status = "end-of-life" then
          [{ type := "node-version-eol"
             severity := if nodeInfo.severity = "" then "warning" else nodeInfo.severity
             currentNodeVersion := currentNodeVersion
             eolDate := nodeInfo.eolDate
             message := nodeInfo.message }]
        else [])

/-- `check(graph, projectMetadata)`: resets the issue accumulator and runs
the five passes in order; the returned list is their concatenation. -/
def check (sat : String → String → Bool)
    (satMaybe : String → String → Option Bool) (major : String → Nat)
    (currentNodeVersion : String) (rules : RulesStore) (g : DepGraph)
    (projectMetadata : ProjMeta) : List Issue :=
  checkPeerDependencies sat g
    ++ checkVersionIncompatibilities sat satMaybe currentNodeVersion rules g
    ++ checkDeprecatedPackages rules g
    ++ checkESMCompatibility sat rules g projectMetadata
    ++ checkEngineRequirements sat major currentNodeVersion rules g projectMetadata

/-- The `{error, warning, info}` grouping returned by `getIssuesBySeverity`. -/
structure SeverityGroups where
  error : List Issue := []
  warning : List Issue := []
  info : List Issue := []
  deriving DecidableEq, Repr

/-- The severity used by the grouping loop: `issue.severity || 'warning'`,
i.e. unset defaults to `warning`. -/
def defaultSeverity (i : Issue) : String :=
  if i.severity = "" then "warning" else i.severity

/-- One step of the `getIssuesBySeverity()` accumulator loop; the
`if (grouped[severity])` guard drops severities other than the three
keys. -/
def severityStep (grouped : SeverityGroups) (issue : Issue) : SeverityGroups :=
  let severity := defaultSeverity issue
  if severity = "error" then { grouped with error := grouped.error ++ [issue] }
  else if severity = "warning" then { grouped with warning := grouped.warning ++ [issue] }
  else if severity = "info" then { grouped with info := grouped.info ++ [issue] }
  else grouped

/-- `getIssuesBySeverity()`: fold the accumulator loop over the issues. -/
def getIssuesBySeverity (issues : List Issue) : SeverityGroups :=
  issues.foldl severityStep {}

/-- `pat` occurs as a contiguous substring of `hay`
(JS `String.prototype.includes`). -/
def hasSubstring (hay pat : List Char) : Bool :=
  pat.isPrefixOf hay ||
    match hay with
    | [] => false
    | _ :: t => hasSubstring t pat

/-- The `types` component of `getSummary()`. -/
structure SummaryTypes where
  peerDependency : Nat := 0
  versionIncompatibility : Nat := 0
  deprecated : Nat := 0
  esm : Nat := 0
  engine : Nat := 0
  deriving DecidableEq, Repr

/-- The `getSummary()` result shape. -/
structure Summary where
  total : Nat := 0
  errors : Nat := 0
  warnings : Nat := 0
  info : Nat := 0
  types : SummaryTypes := {}
  deriving DecidableEq, Repr

/-- `getSummary()`: totals from the raw list, severity counts from the
grouping, type counts by substring / exact-type filters. -/
def getSummary (issues : List Issue) : Summary :=
  let bySeverity := getIssuesBySeverity issues
  { total := issues.length
    errors := bySeverity.error.length
    warnings := bySeverity.warning.length
    info := bySeverity.info.length
    types :=
      { peerDependency := (issues.filter
          (fun i => hasSubstring i.type.data "peer-dependency".data)).length
        versionIncompatibility := (issues.filter
          (fun i => i.type = "version-incompatibility")).length
        deprecated := (issues.filter
          (fun i => i.type = "deprecated-package")).length
        esm := (issues.filter
          (fun i => i.type = "esm-commonjs-conflict")).length
        engine := (issues.filter
          (fun i => hasSubstring i.type.data "engine".data
            || hasSubstring i.type.data "node-version".data)).length } }

/-- There is an edge `a → b` in the graph's edge lists. -/
def hasEdge (g : DepGraph) (a b : String) : Bool :=
  (getDependencies g a).any (fun e => e.toPkg = b)

/-- The node sequence is connected by edges of `g` (a path along the edges
mapping; node-set membership plays no role). -/
def isChain (g : DepGraph) : List String → Bool
  | [] => true
  | [_] => true
  | a :: b :: rest => hasEdge g a b && isChain g (b :: rest)

/-- Demo graph: a single edge `a → b` and an empty node map. -/
def gEdgeOnly : DepGraph := addEdge {} "a" "b" "1.0.0"

/-- Demo graph for the peer-dependency pass: `react-dom@18.0.0` declares
peer `react@^18.0.0`, `react@17.0.0` is installed. -/
def gPeerDemo : DepGraph :=
  addNode
    (addNode {} "react-dom"
      { version := "18.0.0", peerDependencies := [("react", "^18.0.0")] })
    "react" { version := "17.0.0" }

/-- Demo semver oracle: `17.0.0` fails `^18.0.0`, `18.0.0` satisfies it,
and everything else satisfies everything. -/
def satDemo : String → String → Bool :=
  fun v r => !(v = "17.0.0" && r = "^18.0.0")

/-- Demo rules store with a single ESM rule for `chalk@>=5.0.0`. -/
def esmRulesDemo : RulesStore :=
  { esm := [{ package := "chalk", version := ">=5.0.0",
              compatibleVersion := "4.1.2" }] }

/-- Demo graph with `chalk@5.0.0` installed. -/
def gEsmDemo : DepGraph := addNode {} "chalk" { version := "5.0.0" }

/-- Project metadata with a module type that is neither `module` nor
`commonjs`. -/
def metaUmd : ProjMeta := { name := "p", type := "umd" }

/-- Project metadata with module type `commonjs`. -/
def metaCommon : ProjMeta := { name := "p", type := "commonjs" }

/-- An issue whose severity is set but not one of `error`/`warning`/`info`. -/
def badSeverityIssue : Issue := { type := "custom", severity := "critical" }

/-- Demo deprecation rule for `node-sass`, with a replacement suggestion. -/
def depRuleDemo : DeprecationRule :=
  { package := "node-sass", reason := "node-sass is deprecated",
    replacement := "sass", fix := "npm install sass" }

/-- Demo rules store containing only the `node-sass` deprecation rule. -/
def depRulesDemo : RulesStore := { deprecated := [depRuleDemo] }

/-- Demo graph with `node-sass@7.0.0` installed. -/
def gDepDemo : DepGraph := addNode {} "node-sass" { version := "7.0.0" }

/-- Demo project data: two declared dependencies, two installed packages,
one with its own transitive dependency. -/
def pdDemo : ProjectData :=
  { metadata := { name := "p", version := "1.0.0" }
    dependencies := { all := [("x", "^1.0.0"), ("y", "^2.0.0")] }
    installed := [("x", { version := "1.2.0" }),
      ("y", { version := "2.0.1", dependencies := [("z", "^3.0.0")] })] }

/-- Demo project data with zero declared dependencies. -/
def pdNoDeps : ProjectData :=
  { metadata := { name := "p", version := "1.0.0" }
    installed := [("x", { version := "1.0.0" })] }

/-- Pathological project data: an installed entry literally named
`__root__`, which `buildFromProject` lets overwrite the synthetic root node
and append to the root's edge list. -/
def pdRootClash : ProjectData :=
  { metadata := { name := "p", version := "1.0.0" }
    installed := [("__root__",
      { version := "9.9.9", dependencies := [("x", "1.0.0")] })] }

end Compatify

namespace Compatify

@[simp] theorem lookupA_nil {α : Type} (k : String) :
    lookupA ([] : List (String × α)) k = none := rfl

@[simp] theorem lookupA_cons {α : Type} (k k' : String) (v : α) (rest : List (String × α)) :
    lookupA ((k', v) :: rest) k = if k' = k then some v else lookupA rest k := rfl

theorem lookupA_setA_self {α : Type} (k : String) (v : α) (l : List (String × α)) :
    lookupA (setA k v l) k = some v := by
  induction l with
  | nil => simp [setA]
  | cons hd tl ih =>
      obtain ⟨k', v'⟩ := hd
      by_cases h : k' = k <;> simp [setA, h, ih]

theorem lookupA_setA_ne {α : Type} (k j : String) (v : α) (l : List (String × α))
    (hne : j ≠ k) : lookupA (setA k v l) j = lookupA l j := by
  induction l with
  | nil => simp [setA, lookupA, hne.symm]
  | cons hd tl ih =>
      obtain ⟨k', v'⟩ := hd
      by_cases h : k' = k
      · subst h
        simp [setA, lookupA, hne.symm]
      · simp only [setA, if_neg h, lookupA_cons, ih]

theorem lookupA_isSome_iff_mem_keys {α : Type} (l : List (String × α)) (k : String) :
    (lookupA l k).isSome = true ↔ k ∈ l.map Prod.fst := by
  induction l with
  | nil => simp
  | cons hd tl ih =>
      obtain ⟨k', v'⟩ := hd
      by_cases h : k' = k
      · subst h
        simp
      · rw [lookupA_cons, if_neg h]
        simp only [List.map_cons, List.mem_cons, ih]
        constructor
        · intro hm
          exact Or.inr hm
        · rintro (hk | hm)
          · exact absurd hk.symm h
          · exact hm

theorem length_le_of_mem_dfsPaths (g : DepGraph) (tgt : String) :
    ∀ (remaining : Nat) (current : String) (path visited : List String)
      (p : List String), p ∈ dfsPaths g tgt remaining current path visited →
      p.length ≤ path.length + remaining := by
  intro remaining
  induction remaining with
  | zero =>
      intro current path visited p hp
      simp [dfsPaths] at hp
  | succ n ih =>
      intro current path visited p hp
      rw [dfsPaths] at hp
      by_cases h1 : current = tgt
      · rw [if_pos h1] at hp
        simp only [List.mem_singleton] at hp
        subst hp
        simp
      · rw [if_neg h1] at hp
        by_cases h2 : current ∈ visited
        · rw [if_pos h2] at hp
          simp at hp
        · rw [if_neg h2] at hp
          simp only [List.mem_flatten, List.mem_map] at hp
          obtain ⟨l, ⟨e, _, rfl⟩, hpl⟩ := hp
          have := ih e.toPkg (path ++ [current]) (current :: visited) p hpl
          simp only [List.length_append, List.length_singleton] at this
          omega

theorem nodup_of_mem_dfsPaths (g : DepGraph) (tgt : String) :
    ∀ (remaining : Nat) (current : String) (path visited : List String),
      (∀ x, x ∈ visited ↔ x ∈ path) → path.Nodup → tgt ∉ path →
      ∀ p ∈ dfsPaths g tgt remaining current path visited, p.Nodup := by
  intro remaining
  induction remaining with
  | zero =>
      intro current path visited _ _ _ p hp
      simp [dfsPaths] at hp
  | succ n ih =>
      intro current path visited hv hnd htgt p hp
      rw [dfsPaths] at hp
      by_cases h1 : current = tgt
      · rw [if_pos h1] at hp
        simp only [List.mem_singleton] at hp
        subst hp
        rw [List.nodup_append]
        refine ⟨hnd, List.nodup_singleton _, ?_⟩
        intro a ha hb
        simp only [List.mem_singleton] at hb
        subst hb
        rw [h1] at ha
        exact htgt ha
      · rw [if_neg h1] at hp
        by_cases h2 : current ∈ visited
        · rw [if_pos h2] at hp
          simp at hp
        · rw [if_neg h2] at hp
          simp only [List.mem_flatten, List.mem_map] at hp
          obtain ⟨l, ⟨e, _, rfl⟩, hpl⟩ := hp
          have hcp : current ∉ path := fun hc => h2 ((hv current).mpr hc)
          refine ih e.toPkg (path ++ [current]) (current :: visited) ?_ ?_ ?_ p hpl
          · intro x
            simp only [List.mem_cons, List.mem_append, List.mem_singleton, hv x]
            tauto
          · rw [List.nodup_append]
            refine ⟨hnd, List.nodup_singleton _, ?_⟩
            intro a ha hb
            simp only [List.mem_singleton] at hb
            subst hb
            exact hcp ha
          · simp only [List.mem_append, List.mem_singleton]
            rintro (h | h)
            · exact htgt h
            · exact h1 h.symm

theorem chain_of_mem_dfsPaths (g : DepGraph) (tgt : String) :
    ∀ (remaining : Nat) (current : String) (path visited : List String)
      (p : List String), p ∈ dfsPaths g tgt remaining current path visited →
      ∃ q, p = path ++ q ∧ q.head? = some current ∧ q.getLast? = some tgt ∧
        isChain g q = true := by
  intro remaining
  induction remaining with
  | zero =>
      intro current path visited p hp
      simp [dfsPaths] at hp
  | succ n ih =>
      intro current path visited p hp
      rw [dfsPaths] at hp
      by_cases h1 : current = tgt
      · rw [if_pos h1] at hp
        simp only [List.mem_singleton] at hp
        subst hp
        exact ⟨[current], rfl, rfl, by simp [h1], rfl⟩
      · rw [if_neg h1] at hp
        by_cases h2 : current ∈ visited
        · rw [if_pos h2] at hp
          simp at hp
        · rw [if_neg h2] at hp
          simp only [List.mem_flatten, List.mem_map] at hp
          obtain ⟨l, ⟨e, he, rfl⟩, hpl⟩ := hp
          obtain ⟨q, hq, hqh, hql, hqc⟩ := ih e.toPkg (path ++ [current]) (current :: visited) p hpl
          refine ⟨current :: q, ?_, rfl, ?_, ?_⟩
          · rw [hq, List.append_assoc]
            rfl
          · cases q with
            | nil => simp at hqh
            | cons b t => rw [List.getLast?_cons_cons]; exact hql
          · cases q with
            | nil => simp at hqh
            | cons b t =>
                simp only [List.head?_cons, Option.some_inj] at hqh
                subst hqh
                show (hasEdge g current e.toPkg && isChain g (e.toPkg :: t)) = true
                rw [Bool.and_eq_true]
                constructor
                · exact List.any_eq_true.mpr ⟨e, he, by simp⟩
                · exact hqc

/-- C5: every path returned by `findPaths(from, to, maxDepth)` contains no
repeated node, and has at most `maxDepth` hops from `from` (a returned path
of `n` nodes has `n - 1` hops, so `length ≤ maxDepth + 1`). -/
theorem findPaths_simple_bounded (g : DepGraph) (fromPkg toPkg : String)
    (maxDepth : Nat) (p : List String)
    (hp : p ∈ findPaths g fromPkg toPkg maxDepth) :
    p.Nodup ∧ p.length ≤ maxDepth + 1 := by
  constructor
  · exact nodup_of_mem_dfsPaths g toPkg (maxDepth + 1) fromPkg [] []
      (by simp) (List.nodup_nil) (by simp) p hp
  · have := length_le_of_mem_dfsPaths g toPkg (maxDepth + 1) fromPkg [] [] p hp
    simpa using this

theorem findPaths_simple_bounded_witness :
    (["a", "b"] ∈ findPaths gEdgeOnly "a" "b" 10) ∧
      (["a", "b"] : List String).Nodup ∧ (["a", "b"] : List String).length ≤ 11 :=
  ⟨by decide, findPaths_simple_bounded gEdgeOnly "a" "b" 10 ["a", "b"] (by decide)⟩

/-- C9: `findPaths(x, x, maxDepth)` always returns exactly the trivial
single-node path `[x]`, for every graph, every `x` (node of the graph or
not) and every depth bound: the DFS hits `current === to` before any
cycle or membership test. -/
theorem findPaths_self_trivial (g : DepGraph) (x : String) (maxDepth : Nat) :
    findPaths g x x maxDepth = [[x]] := by
  rw [findPaths, dfsPaths, if_pos rfl]
  rfl

/-- C4 (amended): every path returned by `findPaths(from, to, maxDepth)` is
a chain along the graph's edge lists starting at `from` and ending at `to`;
consequently the result is empty whenever no such edge chain exists.
(Absence of `from`/`to` from the node map does not by itself force an empty
result — the search consults only the edges map.) -/
theorem findPaths_sound_chain (g : DepGraph) (fromPkg toPkg : String)
    (maxDepth : Nat) :
    (∀ p ∈ findPaths g fromPkg toPkg maxDepth,
      p.head? = some fromPkg ∧ p.getLast? = some toPkg ∧ isChain g p = true) ∧
    ((∀ q : List String, ¬(q.head? = some fromPkg ∧ q.getLast? = some toPkg ∧
        isChain g q = true)) → findPaths g fromPkg toPkg maxDepth = []) := by
  have hsound : ∀ p ∈ findPaths g fromPkg toPkg maxDepth,
      p.head? = some fromPkg ∧ p.getLast? = some toPkg ∧ isChain g p = true := by
    intro p hp
    obtain ⟨q, hq, hqh, hql, hqc⟩ :=
      chain_of_mem_dfsPaths g toPkg (maxDepth + 1) fromPkg [] [] p hp
    simp only [List.nil_append] at hq
    subst hq
    exact ⟨hqh, hql, hqc⟩
  refine ⟨hsound, ?_⟩
  intro hnone
  by_contra hne
  obtain ⟨p, hp⟩ := List.exists_mem_of_ne_nil _ hne
  exact hnone p (hsound p hp)

/-- C4 counterexample: the claim as stated also demands emptiness whenever
`from` or `to` is absent from the graph's **node set**; but `findPaths`
walks only the edges map.  In `gEdgeOnly` (one edge `a → b`, empty node
map) both `a` and `b` are absent from the node set, yet a path is
returned. -/
theorem findPaths_absent_node_counterexample :
    getNode gEdgeOnly "a" = none ∧ getNode gEdgeOnly "b" = none ∧
      findPaths gEdgeOnly "a" "b" 10 = [["a", "b"]] := by
  refine ⟨rfl, rfl, ?_⟩
  decide

theorem findPaths_sound_chain_witness :
    (["a", "b"] ∈ findPaths gEdgeOnly "a" "b" 10) ∧
      ((["a", "b"] : List String).head? = some "a" ∧
       (["a", "b"] : List String).getLast? = some "b" ∧
       isChain gEdgeOnly ["a", "b"] = true) :=
  ⟨by decide, (findPaths_sound_chain gEdgeOnly "a" "b" 10).1 ["a", "b"] (by decide)⟩

/-- C10: the graph mutators only touch their own component.  `addNode`
leaves the edges map untouched (so re-adding a name overwrites its metadata
while preserving every previously added edge from and to it) and rewrites
exactly the `name` entry of the node map; `addEdge` leaves the node map
untouched, appends exactly one edge to the source's list, and leaves every
other source's edge list unchanged. -/
theorem addNode_addEdge_frame (g : DepGraph) (name : String) (metadata : Metadata)
    (fromPkg toPkg versionRange : String) (k : String) :
    (addNode g name metadata).edges = g.edges ∧
    getNode (addNode g name metadata) name = some (mkNode name metadata) ∧
    (k ≠ name → getNode (addNode g name metadata) k = getNode g k) ∧
    (addEdge g fromPkg toPkg versionRange).nodes = g.nodes ∧
    getDependencies (addEdge g fromPkg toPkg versionRange) fromPkg =
      getDependencies g fromPkg ++ [⟨toPkg, versionRange⟩] ∧
    (k ≠ fromPkg → getDependencies (addEdge g fromPkg toPkg versionRange) k =
      getDependencies g k) := by
  refine ⟨rfl, ?_, ?_, rfl, ?_, ?_⟩
  · exact lookupA_setA_self name (mkNode name metadata) g.nodes
  · intro hk
    exact lookupA_setA_ne name k (mkNode name metadata) g.nodes hk
  · show (lookupA (setA fromPkg ((lookupA g.edges fromPkg).getD [] ++
      [⟨toPkg, versionRange⟩]) g.edges) fromPkg).getD [] = _
    rw [lookupA_setA_self]
    rfl
  · intro hk
    show (lookupA (setA fromPkg ((lookupA g.edges fromPkg).getD [] ++
      [⟨toPkg, versionRange⟩]) g.edges) k).getD [] = _
    rw [lookupA_setA_ne _ _ _ _ hk]
    rfl

theorem addNode_addEdge_frame_witness :
    (addNode gPeerDemo "a" {} ).edges = gPeerDemo.edges ∧
      getNode (addNode gPeerDemo "a" {}) "react" = getNode gPeerDemo "react" ∧
      getDependencies (addEdge gPeerDemo "a" "b" "1.0.0") "react" =
        getDependencies gPeerDemo "react" := by
  have h := addNode_addEdge_frame gPeerDemo "a" {} "a" "b" "1.0.0" "react"
  exact ⟨h.1, h.2.2.1 (by decide), h.2.2.2.2.2 (by decide)⟩

theorem assoc_val_unique {α : Type} {l : List (String × α)}
    (hnd : (l.map Prod.fst).Nodup) {k : String} {a b : α}
    (ha : (k, a) ∈ l) (hb : (k, b) ∈ l) : a = b := by
  induction l with
  | nil => simp at ha
  | cons hd tl ih =>
      simp only [List.map_cons, List.nodup_cons] at hnd
      simp only [List.mem_cons] at ha hb
      rcases ha with ha | ha <;> rcases hb with hb | hb
      · rw [← ha] at hb
        exact ((Prod.mk.injEq _ _ _ _ ▸ hb).2).symm
      · exfalso
        apply hnd.1
        have hk : hd.1 = k := by rw [← ha]
        rw [hk]
        exact List.mem_map.mpr ⟨(k, b), hb, rfl⟩
      · exfalso
        apply hnd.1
        have hk : hd.1 = k := by rw [← hb]
        rw [hk]
        exact List.mem_map.mpr ⟨(k, a), ha, rfl⟩
      · exact ih hnd.2 ha hb

theorem mem_getAllPackages_of_getNode {g : DepGraph} {P : String} {nd : Node}
    (hP : getNode g P = some nd) (hroot : P ≠ "__root__") :
    P ∈ getAllPackages g := by
  rw [getNode] at hP
  simp only [getAllPackages, List.mem_filter]
  constructor
  · apply (lookupA_isSome_iff_mem_keys _ _).mp
    rw [hP]
    rfl
  · simpa using hroot

/-- Membership characterization of the peer-dependency pass: an issue is in
its output exactly when it is the missing-peer issue of an enumerated
package's peer declaration whose peer has no node, or the mismatch issue of
one whose peer node fails the range check. -/
theorem mem_checkPeerDependencies (sat : String → String → Bool) (g : DepGraph)
    (i : Issue) :
    i ∈ checkPeerDependencies sat g ↔
      ∃ packageName node peerName peerRange,
        packageName ∈ getAllPackages g ∧
        getNode g packageName = some node ∧
        (peerName, peerRange) ∈ node.peerDependencies ∧
        ((getNode g peerName = none ∧
            i = mkMissingPeerIssue packageName node peerName peerRange) ∨
         (∃ peerNode, getNode g peerName = some peerNode ∧
            sat peerNode.version peerRange = false ∧
            i = mkPeerMismatchIssue packageName node peerName peerRange peerNode)) := by
  constructor
  · intro hi
    simp only [checkPeerDependencies, List.mem_flatten, List.mem_map] at hi
    obtain ⟨l, ⟨pkg, hpkg, rfl⟩, hil⟩ := hi
    split at hil
    · simp at hil
    · rename_i node hn
      simp only [List.mem_flatten, List.mem_map] at hil
      obtain ⟨l2, ⟨pr, hpr, rfl⟩, hil2⟩ := hil
      split at hil2
      · rename_i hpn
        simp only [List.mem_singleton] at hil2
        exact ⟨pkg, node, pr.1, pr.2, hpkg, hn,
          by simpa using hpr, Or.inl ⟨hpn, hil2⟩⟩
      · rename_i peerNode hpn
        by_cases hs : sat peerNode.version pr.2 = true
        · rw [if_pos hs] at hil2
          simp at hil2
        · rw [if_neg hs] at hil2
          simp only [List.mem_singleton] at hil2
          exact ⟨pkg, node, pr.1, pr.2, hpkg, hn, by simpa using hpr,
            Or.inr ⟨peerNode, hpn, by simpa using hs, hil2⟩⟩
  · rintro ⟨pkg, node, peerName, peerRange, hpkg, hn, hpr, hbranch⟩
    simp only [checkPeerDependencies, List.mem_flatten, List.mem_map]
    refine ⟨_, ⟨pkg, hpkg, rfl⟩, ?_⟩
    simp only [hn]
    simp only [List.mem_flatten, List.mem_map]
    refine ⟨_, ⟨(peerName, peerRange), hpr, rfl⟩, ?_⟩
    rcases hbranch with ⟨hpn, rfl⟩ | ⟨peerNode, hpn, hs, rfl⟩
    · simp only [hpn]
      simp
    · simp only [hpn]
      rw [if_neg (by simp [hs])]
      simp

/-- C1: for every non-root package node `P` carrying a peer declaration
`(peer, r)` (a JS object, so its keys are free of duplicates), the peer
pass emits a `missing-peer-dependency` issue (severity `error`) for
`(P, peer)` iff `peer` has no node; emits a `peer-dependency-mismatch`
issue (severity `error`, recording the required range and installed
version) iff `peer`'s node exists and its version fails the range; the two
are mutually exclusive per `(P, peer)` pair; and a satisfied peer yields no
issue for the pair. -/
theorem peer_pass_missing_mismatch (sat : String → String → Bool) (g : DepGraph)
    (P peer r : String) (nd : Node)
    (hP : getNode g P = some nd) (hroot : P ≠ "__root__")
    (hdecl : (peer, r) ∈ nd.peerDependencies)
    (hnodup : (nd.peerDependencies.map Prod.fst).Nodup) :
    ((∃ i ∈ checkPeerDependencies sat g,
        i.type = "missing-peer-dependency" ∧ i.severity = "error" ∧
        i.package = P ∧ i.peerPackage = peer ∧ i.requiredVersion = r) ↔
      getNode g peer = none) ∧
    (∀ pn, getNode g peer = some pn →
      ((∃ i ∈ checkPeerDependencies sat g,
          i.type = "peer-dependency-mismatch" ∧ i.severity = "error" ∧
          i.package = P ∧ i.peerPackage = peer ∧ i.requiredVersion = r ∧
          i.installedVersion = pn.version) ↔
        sat pn.version r = false)) ∧
    (¬ ((∃ i ∈ checkPeerDependencies sat g,
          i.type = "missing-peer-dependency" ∧ i.peerPackage = peer) ∧
        (∃ i ∈ checkPeerDependencies sat g,
          i.type = "peer-dependency-mismatch" ∧ i.peerPackage = peer))) ∧
    (∀ pn, getNode g peer = some pn → sat pn.version r = true →
      ∀ i ∈ checkPeerDependencies sat g,
        ¬(i.package = P ∧ i.peerPackage = peer)) := by
  have hmemP := mem_getAllPackages_of_getNode hP hroot
  refine ⟨?_, ?_, ?_, ?_⟩
  · constructor
    · rintro ⟨i, hi, htype, -, -, hpeer, -⟩
      rw [mem_checkPeerDependencies] at hi
      obtain ⟨pkg, node, pn', pr', -, -, -, hbr⟩ := hi
      rcases hbr with ⟨hpn, rfl⟩ | ⟨peerNode, hpn, hs, rfl⟩
      · simp only [mkMissingPeerIssue] at hpeer
        rw [← hpeer]
        exact hpn
      · simp only [mkPeerMismatchIssue] at htype
        exact absurd htype (by decide)
    · intro hnone
      refine ⟨mkMissingPeerIssue P nd peer r, ?_, ?_⟩
      · rw [mem_checkPeerDependencies]
        exact ⟨P, nd, peer, r, hmemP, hP, hdecl, Or.inl ⟨hnone, rfl⟩⟩
      · simp [mkMissingPeerIssue]
  · intro pn hpn
    constructor
    · rintro ⟨i, hi, htype, -, hpkg, hpeer, hreq, -⟩
      rw [mem_checkPeerDependencies] at hi
      obtain ⟨pkg, node, pn', pr', -, hn, hprmem, hbr⟩ := hi
      rcases hbr with ⟨hab, rfl⟩ | ⟨peerNode, hpn', hs, rfl⟩
      · simp only [mkMissingPeerIssue] at htype
        exact absurd htype (by decide)
      · simp only [mkPeerMismatchIssue] at hpkg hpeer hreq
        subst hpkg
        rw [hP] at hn
        obtain rfl : nd = node := by injection hn
        subst hpeer
        rw [hpn] at hpn'
        obtain rfl : pn = peerNode := by injection hpn'
        subst hreq
        exact hs
    · intro hs
      refine ⟨mkPeerMismatchIssue P nd peer r pn, ?_, ?_⟩
      · rw [mem_checkPeerDependencies]
        exact ⟨P, nd, peer, r, hmemP, hP, hdecl,
          Or.inr ⟨pn, hpn, hs, rfl⟩⟩
      · simp [mkPeerMismatchIssue]
  · rintro ⟨⟨i1, hi1, ht1, hp1⟩, ⟨i2, hi2, ht2, hp2⟩⟩
    rw [mem_checkPeerDependencies] at hi1 hi2
    obtain ⟨pkg1, node1, pn1, pr1, -, -, -, hbr1⟩ := hi1
    obtain ⟨pkg2, node2, pn2, pr2, -, -, -, hbr2⟩ := hi2
    have habs : getNode g peer = none := by
      rcases hbr1 with ⟨hab, rfl⟩ | ⟨peerNode, -, -, rfl⟩
      · simp only [mkMissingPeerIssue] at hp1
        rw [← hp1]
        exact hab
      · simp only [mkPeerMismatchIssue] at ht1
        exact absurd ht1 (by decide)
    rcases hbr2 with ⟨-, rfl⟩ | ⟨peerNode, hpres, -, rfl⟩
    · simp only [mkMissingPeerIssue] at ht2
      exact absurd ht2 (by decide)
    · simp only [mkPeerMismatchIssue] at hp2
      rw [← hp2] at habs
      rw [habs] at hpres
      exact Option.noConfusion hpres
  · intro pn hpn hsat i hi ⟨hpkg, hpeer⟩
    rw [mem_checkPeerDependencies] at hi
    obtain ⟨pkg, node, pn', pr', -, hn, hprmem, hbr⟩ := hi
    rcases hbr with ⟨hab, rfl⟩ | ⟨peerNode, hpn', hs, rfl⟩
    · simp only [mkMissingPeerIssue] at hpkg hpeer
      subst hpkg
      subst hpeer
      rw [hpn] at hab
      exact Option.noConfusion hab
    · simp only [mkPeerMismatchIssue] at hpkg hpeer
      subst hpkg
      subst hpeer
      rw [hP] at hn
      obtain rfl : nd = node := by injection hn
      obtain rfl : pr' = r := assoc_val_unique hnodup hprmem hdecl
      rw [hpn] at hpn'
      obtain rfl : pn = peerNode := by injection hpn'
      rw [hsat] at hs
      exact Bool.noConfusion hs

theorem peer_pass_missing_mismatch_witness :
    ∃ i ∈ checkPeerDependencies satDemo gPeerDemo,
      i.type = "peer-dependency-mismatch" ∧ i.severity = "error" ∧
      i.package = "react-dom" ∧ i.peerPackage = "react" ∧
      i.requiredVersion = "^18.0.0" ∧ i.installedVersion = "17.0.0" := by
  have h := peer_pass_missing_mismatch satDemo gPeerDemo "react-dom" "react" "^18.0.0"
    (mkNode "react-dom"
      { version := "18.0.0", peerDependencies := [("react", "^18.0.0")] })
    (by decide) (by decide) (by decide) (by decide)
  have hb := (h.2.1 (mkNode "react" { version := "17.0.0" }) (by decide)).mpr (by decide)
  simpa [mkNode] using hb

/-- Membership characterization of the version-incompatibility pass. -/
theorem mem_checkVersionIncompatibilities (sat : String → String → Bool)
    (satMaybe : String → String → Option Bool) (currentNodeVersion : String)
    (rules : RulesStore) (g : DepGraph) (i : Issue) :
    i ∈ checkVersionIncompatibilities sat satMaybe currentNodeVersion rules g ↔
      ∃ rule ∈ rules.rules, ∃ node, getNode g rule.package = some node ∧
        sat node.version rule.version = true ∧
        ((∃ inc ∈ rule.incompatibleWith, ∃ incompatNode,
            getNode g inc.package = some incompatNode ∧
            sat incompatNode.version inc.versionRange = true ∧
            i = mkVersionIncompatIssue rule node inc incompatNode) ∨
         (∃ w ∈ rule.warnings, w.condition ≠ "" ∧
            evaluateCondition satMaybe currentNodeVersion w.condition = true ∧
            i = mkCompatWarningIssue rule node w)) := by
  constructor
  · intro hi
    simp only [checkVersionIncompatibilities, List.mem_flatten, List.mem_map] at hi
    obtain ⟨l, ⟨rule, hrule, rfl⟩, hil⟩ := hi
    split at hil
    · simp at hil
    · rename_i node hn
      by_cases hgate : sat node.version rule.version = true
      · rw [if_pos hgate] at hil
        rw [List.mem_append] at hil
        rcases hil with hil | hil
        · simp only [List.mem_flatten, List.mem_map] at hil
          obtain ⟨l2, ⟨inc, hinc, rfl⟩, hil2⟩ := hil
          split at hil2
          · simp at hil2
          · rename_i incompatNode hin
            by_cases hsat2 : sat incompatNode.version inc.versionRange = true
            · rw [if_pos hsat2] at hil2
              simp only [List.mem_singleton] at hil2
              exact ⟨rule, hrule, node, hn, hgate,
                Or.inl ⟨inc, hinc, incompatNode, hin, hsat2, hil2⟩⟩
            · rw [if_neg hsat2] at hil2
              simp at hil2
        · simp only [List.mem_flatten, List.mem_map] at hil
          obtain ⟨l2, ⟨w, hw, rfl⟩, hil2⟩ := hil
          by_cases hc : w.condition = ""
          · rw [if_pos hc] at hil2
            simp at hil2
          · rw [if_neg hc] at hil2
            by_cases he : evaluateCondition satMaybe currentNodeVersion w.condition = true
            · rw [if_pos he] at hil2
              simp only [List.mem_singleton] at hil2
              exact ⟨rule, hrule, node, hn, hgate, Or.inr ⟨w, hw, hc, he, hil2⟩⟩
            · rw [if_neg he] at hil2
              simp at hil2
      · rw [if_neg hgate] at hil
        simp at hil
  · rintro ⟨rule, hrule, node, hn, hgate, hbranch⟩
    simp only [checkVersionIncompatibilities, List.mem_flatten, List.mem_map]
    refine ⟨_, ⟨rule, hrule, rfl⟩, ?_⟩
    simp only [hn]
    rw [if_pos hgate, List.mem_append]
    rcases hbranch with ⟨inc, hinc, incompatNode, hin, hsat2, rfl⟩ |
      ⟨w, hw, hc, he, rfl⟩
    · left
      simp only [List.mem_flatten, List.mem_map]
      refine ⟨_, ⟨inc, hinc, rfl⟩, ?_⟩
      simp only [hin]
      rw [if_pos hsat2]
      simp
    · right
      simp only [List.mem_flatten, List.mem_map]
      refine ⟨_, ⟨w, hw, rfl⟩, ?_⟩
      rw [if_neg hc, if_pos he]
      simp

/-- C8: `_evaluateCondition` is fail-open: a condition string that does not
match the `node<op><version>` shape evaluates to `false`, a semver
evaluation failure (the caught throw, modelled by the oracle returning
`none`) evaluates to `false`, a `true` evaluation certifies a successful
parse and a successful `semver.satisfies` call, and consequently every
`compatibility-warning` issue emitted by the warning sub-pass comes from a
non-empty condition that parsed and evaluated to `true`. -/
theorem evaluate_condition_fail_open (satMaybe : String → String → Option Bool)
    (currentVersion condition : String) (sat : String → String → Bool)
    (rules : RulesStore) (g : DepGraph) :
    (parseCondition condition = none →
      evaluateCondition satMaybe currentVersion condition = false) ∧
    (∀ op ver, parseCondition condition = some (op, ver) →
      satMaybe currentVersion (op ++ ver) = none →
      evaluateCondition satMaybe currentVersion condition = false) ∧
    (evaluateCondition satMaybe currentVersion condition = true →
      ∃ op ver, parseCondition condition = some (op, ver) ∧
        satMaybe currentVersion (op ++ ver) = some true) ∧
    (∀ i ∈ checkVersionIncompatibilities sat satMaybe currentVersion rules g,
      i.type = "compatibility-warning" →
      ∃ rule ∈ rules.rules, ∃ w ∈ rule.warnings, w.condition ≠ "" ∧
        evaluateCondition satMaybe currentVersion w.condition = true ∧
        i.message = w.message) := by
  refine ⟨?_, ?_, ?_, ?_⟩
  · intro h
    rw [evaluateCondition, h]
  · intro op ver hp hnone
    simp [evaluateCondition, hp, hnone]
  · intro h
    rw [evaluateCondition] at h
    cases hp : parseCondition condition with
    | none => rw [hp] at h; exact Bool.noConfusion h
    | some pr =>
        obtain ⟨op, ver⟩ := pr
        simp only [hp] at h
        cases ho : satMaybe currentVersion (op ++ ver) with
        | none =>
            simp only [ho, Option.getD_none] at h
            exact Bool.noConfusion h
        | some b =>
            simp only [ho, Option.getD_some] at h
            subst h
            exact ⟨op, ver, rfl, ho⟩
  · intro i hi htype
    rw [mem_checkVersionIncompatibilities] at hi
    obtain ⟨rule, hrule, node, -, -, hbr⟩ := hi
    rcases hbr with ⟨inc, -, incompatNode, -, -, rfl⟩ | ⟨w, hw, hc, he, rfl⟩
    · simp only [mkVersionIncompatIssue] at htype
      exact absurd htype (by decide)
    · exact ⟨rule, hrule, w, hw, hc, he, rfl⟩

theorem evaluate_condition_fail_open_witness :
    evaluateCondition (fun _ _ => some true) "18.0.0" "not-a-condition" = false ∧
      evaluateCondition (fun _ _ => none) "18.0.0" "node<16.0.0" = false :=
  ⟨(evaluate_condition_fail_open (fun _ _ => some true) "18.0.0" "not-a-condition"
      (fun _ _ => true) ({} : RulesStore) ({} : DepGraph)).1 (by decide),
   (evaluate_condition_fail_open (fun _ _ => none) "18.0.0" "node<16.0.0"
      (fun _ _ => true) ({} : RulesStore) ({} : DepGraph)).2.1
      "<" "16.0.0" (by decide) rfl⟩

theorem flatten_map_eq_filterMap {α β : Type} (l : List α) (f : α → List β)
    (gf : α → Option β) (h : ∀ x, f x = (gf x).toList) :
    (l.map f).flatten = l.filterMap gf := by
  induction l with
  | nil => rfl
  | cons hd tl ih =>
      simp only [List.map_cons, List.flatten_cons, List.filterMap_cons, h hd]
      cases gf hd with
      | none => simpa using ih
      | some b => simpa using ih

/-- C6 (amended): the ESM/CommonJS pass runs only when the project module
type, defaulted to `commonjs` when unset, is exactly `"commonjs"`: a
`"module"` project gets zero `esm-commonjs-conflict` issues (first two
conjuncts), but so does any project whose type is any other non-`commonjs`
string (e.g. `"umd"`); when the defaulted type is `"commonjs"` the pass
emits exactly one issue per ESM rule whose package has a node satisfying
the rule's version gate, with severity from the rule defaulted to
`error`. -/
theorem esm_pass_commonjs_only (sat : String → String → Bool)
    (rules : RulesStore) (g : DepGraph) (meta : ProjMeta) :
    (meta.type = "module" → checkESMCompatibility sat rules g meta = []) ∧
    ((if meta.type = "" then "commonjs" else meta.type) ≠ "commonjs" →
      checkESMCompatibility sat rules g meta = []) ∧
    ((if meta.type = "" then "commonjs" else meta.type) = "commonjs" →
      checkESMCompatibility sat rules g meta =
        rules.esm.filterMap (fun esmRule =>
          match getNode g esmRule.package with
          | none => none
          | some node =>
            if sat node.version esmRule.version then some (mkEsmIssue esmRule node)
            else none)) := by
  refine ⟨?_, ?_, ?_⟩
  · intro h
    rw [checkESMCompatibility]
    rw [if_pos]
    simp [h]
  · intro h
    rw [checkESMCompatibility, if_pos h]
  · intro h
    rw [checkESMCompatibility, if_neg (by simp [h])]
    apply flatten_map_eq_filterMap
    intro esmRule
    cases hn : getNode g esmRule.package with
    | none => rfl
    | some node =>
        by_cases hs : sat node.version esmRule.version = true
        · simp [hs]
        · simp [hs]

/-- C6 counterexample: the claim states that whenever the module type is
not `"module"` the pass emits one issue per ESM rule whose package's
installed version satisfies the gate.  With module type `"umd"` (not
`"module"`), `chalk@5.0.0` installed, and a satisfied gate (the oracle
below satisfies everything), the pass nonetheless emits zero issues,
because the source's guard is `projectType !== 'commonjs'`, not
`=== 'module'`. -/
theorem esm_pass_not_module_counterexample :
    metaUmd.type ≠ "module" ∧
    getNode gEsmDemo "chalk" = some (mkNode "chalk" { version := "5.0.0" }) ∧
    (fun _ _ => true : String → String → Bool)
      (mkNode "chalk" { version := "5.0.0" }).version ">=5.0.0" = true ∧
    checkESMCompatibility (fun _ _ => true) esmRulesDemo gEsmDemo metaUmd = [] := by
  refine ⟨by decide, by decide, rfl, ?_⟩
  decide

theorem esm_pass_commonjs_only_witness :
    checkESMCompatibility (fun _ _ => true) esmRulesDemo gEsmDemo metaCommon =
      [mkEsmIssue { package := "chalk", version := ">=5.0.0", compatibleVersion := "4.1.2" }
        (mkNode "chalk" { version := "5.0.0" })] := by
  have h := (esm_pass_commonjs_only (fun _ _ => true) esmRulesDemo gEsmDemo metaCommon).2.2
    (by decide)
  rw [h]
  decide

theorem checkPeerDependencies_types (sat : String → String → Bool) (g : DepGraph) :
    ∀ i ∈ checkPeerDependencies sat g,
      i.type = "missing-peer-dependency" ∨ i.type = "peer-dependency-mismatch" := by
  intro i hi
  rw [mem_checkPeerDependencies] at hi
  obtain ⟨pkg, node, pn, pr, -, -, -, hbr⟩ := hi
  rcases hbr with ⟨-, rfl⟩ | ⟨peerNode, -, -, rfl⟩
  · left
    rfl
  · right
    rfl

theorem checkVersionIncompatibilities_types (sat : String → String → Bool)
    (satMaybe : String → String → Option Bool) (currentNodeVersion : String)
    (rules : RulesStore) (g : DepGraph) :
    ∀ i ∈ checkVersionIncompatibilities sat satMaybe currentNodeVersion rules g,
      i.type = "version-incompatibility" ∨ i.type = "compatibility-warning" := by
  intro i hi
  rw [mem_checkVersionIncompatibilities] at hi
  obtain ⟨rule, -, node, -, -, hbr⟩ := hi
  rcases hbr with ⟨inc, -, incompatNode, -, -, rfl⟩ | ⟨w, -, -, -, rfl⟩
  · left
    rfl
  · right
    rfl

/-- The ESM pass as an explicit gate plus per-rule `filterMap`. -/
theorem checkESMCompatibility_eq (sat : String → String → Bool)
    (rules : RulesStore) (g : DepGraph) (meta : ProjMeta) :
    checkESMCompatibility sat rules g meta =
      if (if meta.type = "" then "commonjs" else meta.type) ≠ "commonjs" then []
      else
        rules.esm.filterMap (fun esmRule =>
          match getNode g esmRule.package with
          | none => none
          | some node =>
            if sat node.version esmRule.version then some (mkEsmIssue esmRule node)
            else none) := by
  rw [checkESMCompatibility]
  by_cases h : (if meta.type = "" then "commonjs" else meta.type) ≠ "commonjs"
  · rw [if_pos h, if_pos h]
  · rw [if_neg h, if_neg h]
    apply flatten_map_eq_filterMap
    intro esmRule
    cases hn : getNode g esmRule.package with
    | none => rfl
    | some node =>
        by_cases hs : sat node.version esmRule.version = true
        · simp [hs]
        · simp [hs]

theorem checkESMCompatibility_types (sat : String → String → Bool)
    (rules : RulesStore) (g : DepGraph) (meta : ProjMeta) :
    ∀ i ∈ checkESMCompatibility sat rules g meta,
      i.type = "esm-commonjs-conflict" := by
  intro i hi
  rw [checkESMCompatibility_eq] at hi
  by_cases h : (if meta.type = "" then "commonjs" else meta.type) ≠ "commonjs"
  · rw [if_pos h] at hi
    simp at hi
  · rw [if_neg h] at hi
    rw [List.mem_filterMap] at hi
    obtain ⟨esmRule, -, hr⟩ := hi
    split at hr
    · exact Option.noConfusion hr
    · rename_i node hn
      by_cases hs : sat node.version esmRule.version = true
      · rw [if_pos hs] at hr
        obtain rfl : mkEsmIssue esmRule node = i := by injection hr
        rfl
      · rw [if_neg hs] at hr
        exact Option.noConfusion hr

theorem checkEngineRequirements_types (sat : String → String → Bool)
    (major : String → Nat) (currentNodeVersion : String) (rules : RulesStore)
    (g : DepGraph) (meta : ProjMeta) :
    ∀ i ∈ checkEngineRequirements sat major currentNodeVersion rules g meta,
      i.type = "engine-mismatch" ∨ i.type = "node-version-eol" := by
  intro i hi
  rw [checkEngineRequirements] at hi
  rw [List.mem_append] at hi
  rcases hi with hi | hi
  · rw [List.mem_append] at hi
    rcases hi with hi | hi
    · split at hi
      · simp at hi
      · rename_i required hreq
        by_cases hs : sat currentNodeVersion required = true
        · rw [if_pos hs] at hi
          simp at hi
        · rw [if_neg hs] at hi
          simp only [List.mem_singleton] at hi
          subst hi
          left
          rfl
    · simp only [List.mem_flatten, List.mem_map] at hi
      obtain ⟨l, ⟨pkg, -, rfl⟩, hil⟩ := hi
      split at hil
      · simp at hil
      · rename_i node hn
        split at hil
        · simp at hil
        · rename_i required hreq
          by_cases hs : sat currentNodeVersion required = true
          · rw [if_pos hs] at hil
            simp at hil
          · rw [if_neg hs] at hil
            simp only [List.mem_singleton] at hil
            subst hil
            left
            rfl
  · split at hi
    · simp at hi
    · rename_i nodeInfo hinfo
      by_cases hs : nodeInfo.status = "end-of-life"
      · rw [if_pos hs] at hi
        simp only [List.mem_singleton] at hi
        subst hi
        right
        rfl
      · rw [if_neg hs] at hi
        simp at hi

/-- Membership characterization of the deprecation pass. -/
theorem mem_checkDeprecatedPackages (rules : RulesStore) (g : DepGraph) (i : Issue) :
    i ∈ checkDeprecatedPackages rules g ↔
      ∃ d ∈ rules.deprecated, ∃ node, getNode g d.package = some node ∧
        i = mkDeprecatedIssue d node := by
  simp only [checkDeprecatedPackages, List.mem_flatten, List.mem_map]
  constructor
  · rintro ⟨l, ⟨d, hd, rfl⟩, hil⟩
    rw [depIssueFor] at hil
    split at hil
    · simp at hil
    · rename_i node hn
      simp only [List.mem_singleton] at hil
      exact ⟨d, hd, node, hn, hil⟩
  · rintro ⟨d, hd, node, hn, rfl⟩
    refine ⟨_, ⟨d, hd, rfl⟩, ?_⟩
    rw [depIssueFor]
    simp only [hn]
    simp

theorem countP_depIssueFor (g : DepGraph) (p : String)
    (l : List DeprecationRule) :
    (((l.map (depIssueFor g)).flatten).countP
      (fun i => decide (i.type = "deprecated-package" ∧ i.package = p))) =
      l.countP (fun d => decide (d.package = p ∧ (getNode g d.package).isSome)) := by
  induction l with
  | nil => rfl
  | cons d tl ih =>
      simp only [List.map_cons, List.flatten_cons, List.countP_append,
        List.countP_cons, ih]
      rw [depIssueFor]
      cases hn : getNode g d.package with
      | none => simp [hn]
      | some node =>
          by_cases hp : d.package = p
          · simp [hn, mkDeprecatedIssue, hp]
            omega
          · simp [hn, mkDeprecatedIssue, hp]

/-- C7: a single `check()` run emits exactly one `deprecated-package` issue
per deprecation rule whose package has a node in the graph, with no version
gating (the membership part holds for an arbitrary installed node), and the
rule's `replacement` field is copied verbatim into the issue.  The count of
`deprecated-package` issues for a package name equals the number of
deprecation rules for it whose package is installed, and no other pass
contributes issues of that type. -/
theorem deprecation_pass_exactly_one (sat : String → String → Bool)
    (satMaybe : String → String → Option Bool) (major : String → Nat)
    (currentNodeVersion : String) (rules : RulesStore) (g : DepGraph)
    (meta : ProjMeta) (p : String) :
    (∀ d ∈ rules.deprecated, ∀ nd, getNode g d.package = some nd →
      mkDeprecatedIssue d nd ∈ check sat satMaybe major currentNodeVersion rules g meta ∧
      (mkDeprecatedIssue d nd).replacement = d.replacement ∧
      (mkDeprecatedIssue d nd).version = nd.version) ∧
    ((check sat satMaybe major currentNodeVersion rules g meta).countP
        (fun i => decide (i.type = "deprecated-package" ∧ i.package = p)) =
      rules.deprecated.countP
        (fun d => decide (d.package = p ∧ (getNode g d.package).isSome))) := by
  have hzero : ∀ (li : List Issue), (∀ i ∈ li, i.type ≠ "deprecated-package") →
      li.countP (fun i => decide (i.type = "deprecated-package" ∧ i.package = p)) = 0 := by
    intro li h
    apply List.countP_eq_zero.mpr
    intro i hi
    simp only [decide_eq_true_eq]
    rintro ⟨h1, -⟩
    exact h i hi h1
  constructor
  · intro d hd nd hn
    refine ⟨?_, rfl, rfl⟩
    have hmem : mkDeprecatedIssue d nd ∈ checkDeprecatedPackages rules g :=
      (mem_checkDeprecatedPackages rules g _).mpr ⟨d, hd, nd, hn, rfl⟩
    simp only [check, List.mem_append]
    exact Or.inl (Or.inl (Or.inr hmem))
  · simp only [check, List.countP_append]
    rw [hzero (checkPeerDependencies sat g) (fun i hi => by
      rcases checkPeerDependencies_types sat g i hi with h | h <;>
        · rw [h]; decide)]
    rw [hzero (checkVersionIncompatibilities sat satMaybe currentNodeVersion rules g)
      (fun i hi => by
        rcases checkVersionIncompatibilities_types sat satMaybe currentNodeVersion
          rules g i hi with h | h <;>
          · rw [h]; decide)]
    rw [hzero (checkESMCompatibility sat rules g meta) (fun i hi => by
      rw [checkESMCompatibility_types sat rules g meta i hi]; decide)]
    rw [hzero (checkEngineRequirements sat major currentNodeVersion rules g meta)
      (fun i hi => by
        rcases checkEngineRequirements_types sat major currentNodeVersion rules g
          meta i hi with h | h <;>
          · rw [h]; decide)]
    rw [checkDeprecatedPackages, countP_depIssueFor g p rules.deprecated]
    simp

theorem deprecation_pass_exactly_one_witness :
    mkDeprecatedIssue depRuleDemo (mkNode "node-sass" { version := "7.0.0" }) ∈
      check (fun _ _ => true) (fun _ _ => some false) (fun _ => 0) "18.0.0"
        depRulesDemo gDepDemo ({} : ProjMeta) ∧
    (check (fun _ _ => true) (fun _ _ => some false) (fun _ => 0) "18.0.0"
        depRulesDemo gDepDemo ({} : ProjMeta)).countP
      (fun i => decide (i.type = "deprecated-package" ∧ i.package = "node-sass")) = 1 := by
  have h := deprecation_pass_exactly_one (fun _ _ => true) (fun _ _ => some false)
    (fun _ => 0) "18.0.0" depRulesDemo gDepDemo ({} : ProjMeta) "node-sass"
  refine ⟨(h.1 depRuleDemo (by decide)
    (mkNode "node-sass" { version := "7.0.0" }) (by decide)).1, ?_⟩
  rw [h.2]
  decide

theorem severityStep_error (acc : SeverityGroups) (i : Issue) :
    (severityStep acc i).error =
      if defaultSeverity i = "error" then acc.error ++ [i] else acc.error := by
  simp only [severityStep]
  by_cases h1 : defaultSeverity i = "error"
  · simp [h1]
  · by_cases h2 : defaultSeverity i = "warning"
    · simp [h1, h2]
    · by_cases h3 : defaultSeverity i = "info"
      · simp [h1, h2, h3]
      · simp [h1, h2, h3]

theorem severityStep_warning (acc : SeverityGroups) (i : Issue) :
    (severityStep acc i).warning =
      if defaultSeverity i = "warning" then acc.warning ++ [i] else acc.warning := by
  simp only [severityStep]
  by_cases h1 : defaultSeverity i = "error"
  · have h2 : ¬ defaultSeverity i = "warning" := by rw [h1]; decide
    simp [h1, h2]
  · by_cases h2 : defaultSeverity i = "warning"
    · simp [h1, h2]
    · by_cases h3 : defaultSeverity i = "info"
      · simp [h1, h2, h3]
      · simp [h1, h2, h3]

theorem severityStep_info (acc : SeverityGroups) (i : Issue) :
    (severityStep acc i).info =
      if defaultSeverity i = "info" then acc.info ++ [i] else acc.info := by
  simp only [severityStep]
  by_cases h1 : defaultSeverity i = "error"
  · have h3 : ¬ defaultSeverity i = "info" := by rw [h1]; decide
    simp [h1, h3]
  · by_cases h2 : defaultSeverity i = "warning"
    · have h3 : ¬ defaultSeverity i = "info" := by rw [h2]; decide
      simp [h1, h2, h3]
    · by_cases h3 : defaultSeverity i = "info"
      · simp [h1, h2, h3]
      · simp [h1, h2, h3]

theorem foldl_severityStep_spec (issues : List Issue) :
    ∀ acc : SeverityGroups,
      (issues.foldl severityStep acc).error =
        acc.error ++ issues.filter (fun i => defaultSeverity i = "error") ∧
      (issues.foldl severityStep acc).warning =
        acc.warning ++ issues.filter (fun i => defaultSeverity i = "warning") ∧
      (issues.foldl severityStep acc).info =
        acc.info ++ issues.filter (fun i => defaultSeverity i = "info") := by
  induction issues with
  | nil => intro acc; simp
  | cons i tl ih =>
      intro acc
      obtain ⟨h1, h2, h3⟩ := ih (severityStep acc i)
      rw [List.foldl_cons]
      refine ⟨?_, ?_, ?_⟩
      · rw [h1, severityStep_error, List.filter_cons]
        by_cases he : defaultSeverity i = "error"
        · simp [he]
        · simp [he]
      · rw [h2, severityStep_warning, List.filter_cons]
        by_cases he : defaultSeverity i = "warning"
        · simp [he]
        · simp [he]
      · rw [h3, severityStep_info, List.filter_cons]
        by_cases he : defaultSeverity i = "info"
        · simp [he]
        · simp [he]

theorem filter_severity_sum (issues : List Issue)
    (h : ∀ i ∈ issues, defaultSeverity i = "error" ∨ defaultSeverity i = "warning" ∨
      defaultSeverity i = "info") :
    (issues.filter (fun i => defaultSeverity i = "error")).length +
      (issues.filter (fun i => defaultSeverity i = "warning")).length +
      (issues.filter (fun i => defaultSeverity i = "info")).length =
      issues.length := by
  induction issues with
  | nil => rfl
  | cons i tl ih =>
      have hi := h i (List.mem_cons_self i tl)
      have htl := ih (fun j hj => h j (List.mem_cons_of_mem i hj))
      simp only [List.filter_cons, List.length_cons]
      rcases hi with h1 | h1 | h1
      · have h2 : ¬ defaultSeverity i = "warning" := by rw [h1]; decide
        have h3 : ¬ defaultSeverity i = "info" := by rw [h1]; decide
        simp [h1, h2, h3]
        omega
      · have h2 : ¬ defaultSeverity i = "error" := by rw [h1]; decide
        have h3 : ¬ defaultSeverity i = "info" := by rw [h1]; decide
        simp [h1, h2, h3]
        omega
      · have h2 : ¬ defaultSeverity i = "error" := by rw [h1]; decide
        have h3 : ¬ defaultSeverity i = "warning" := by rw [h1]; decide
        simp [h1, h2, h3]
        omega

/-- C2 (amended): `getIssuesBySeverity` buckets are exactly the issues
whose defaulted severity (unset defaults to `warning`) matches the bucket
name — so an issue with a set-but-unrecognized severity lands in **no**
bucket, rather than under `warning` as the claim states.  `getSummary().total`
always equals `issues.length`, and equals `errors + warnings + info`
provided every issue's defaulted severity is one of the three recognized
values (which cannot be taken for granted, since rule files supply
severities verbatim). -/
theorem severity_grouping_spec (issues : List Issue) :
    ((getIssuesBySeverity issues).error =
      issues.filter (fun i => defaultSeverity i = "error")) ∧
    ((getIssuesBySeverity issues).warning =
      issues.filter (fun i => defaultSeverity i = "warning")) ∧
    ((getIssuesBySeverity issues).info =
      issues.filter (fun i => defaultSeverity i = "info")) ∧
    ((getSummary issues).total = issues.length) ∧
    ((∀ i ∈ issues, defaultSeverity i = "error" ∨ defaultSeverity i = "warning" ∨
        defaultSeverity i = "info") →
      (getSummary issues).total =
        (getSummary issues).errors + (getSummary issues).warnings +
          (getSummary issues).info) := by
  obtain ⟨h1, h2, h3⟩ := foldl_severityStep_spec issues {}
  simp only [List.nil_append] at h1 h2 h3
  refine ⟨h1, h2, h3, rfl, ?_⟩
  intro hall
  show issues.length = (getIssuesBySeverity issues).error.length +
    (getIssuesBySeverity issues).warning.length +
    (getIssuesBySeverity issues).info.length
  simp only [getIssuesBySeverity]
  rw [h1, h2, h3]
  exact (filter_severity_sum issues hall).symm

/-- C2 counterexample: an issue whose severity is the unrecognized string
`"critical"` is dropped by `if (grouped[severity])`: it is not placed in
the `warning` bucket, and `getSummary().total` (= 1) differs from
`errors + warnings + info` (= 0), contradicting both parts of the claim. -/
theorem severity_grouping_counterexample :
    badSeverityIssue.severity = "critical" ∧
    (getIssuesBySeverity [badSeverityIssue]).warning = [] ∧
    (getSummary [badSeverityIssue]).total = 1 ∧
    (getSummary [badSeverityIssue]).errors + (getSummary [badSeverityIssue]).warnings +
      (getSummary [badSeverityIssue]).info = 0 := by
  decide

theorem severity_grouping_spec_witness :
    (getSummary [({ type := "t", severity := "info" } : Issue),
        ({ type := "u" } : Issue)]).total =
      (getSummary [({ type := "t", severity := "info" } : Issue),
        ({ type := "u" } : Issue)]).errors +
      (getSummary [({ type := "t", severity := "info" } : Issue),
        ({ type := "u" } : Issue)]).warnings +
      (getSummary [({ type := "t", severity := "info" } : Issue),
        ({ type := "u" } : Issue)]).info :=
  (severity_grouping_spec _).2.2.2.2 (by decide)

theorem addEdge_nodes (g : DepGraph) (f t r : String) :
    (addEdge g f t r).nodes = g.nodes := rfl

theorem getDependencies_addEdge_self (g : DepGraph) (f t r : String) :
    getDependencies (addEdge g f t r) f = getDependencies g f ++ [⟨t, r⟩] := by
  simp only [addEdge, getDependencies]
  rw [lookupA_setA_self]
  rfl

theorem getDependencies_addEdge_ne (g : DepGraph) (f t r k : String) (h : k ≠ f) :
    getDependencies (addEdge g f t r) k = getDependencies g k := by
  simp only [addEdge, getDependencies]
  rw [lookupA_setA_ne _ _ _ _ h]

theorem nodesFold_edges (l : List (String × Metadata)) :
    ∀ g : DepGraph, (l.foldl (fun g nm => addNode g nm.1 nm.2) g).edges = g.edges := by
  induction l with
  | nil => intro g; rfl
  | cons nm tl ih =>
      intro g
      rw [List.foldl_cons, ih]
      rfl

theorem getNode_nodesFold_of_not_mem (l : List (String × Metadata)) :
    ∀ (g : DepGraph) (k : String), k ∉ l.map Prod.fst →
      getNode (l.foldl (fun g nm => addNode g nm.1 nm.2) g) k = getNode g k := by
  induction l with
  | nil => intro g k _; rfl
  | cons nm tl ih =>
      intro g k hk
      simp only [List.map_cons, List.mem_cons] at hk
      push_neg at hk
      rw [List.foldl_cons, ih _ _ hk.2]
      exact lookupA_setA_ne _ _ _ _ hk.1

theorem getNode_nodesFold_isSome (l : List (String × Metadata)) :
    ∀ (g : DepGraph) (k : String),
      (getNode (l.foldl (fun g nm => addNode g nm.1 nm.2) g) k).isSome = true ↔
        (k ∈ l.map Prod.fst ∨ (getNode g k).isSome = true) := by
  induction l with
  | nil => intro g k; simp
  | cons nm tl ih =>
      intro g k
      rw [List.foldl_cons, ih]
      simp only [List.map_cons, List.mem_cons]
      by_cases hk : k = nm.1
      · subst hk
        have hself : getNode (addNode g nm.1 nm.2) nm.1 = some (mkNode nm.1 nm.2) :=
          lookupA_setA_self _ _ _
        simp [hself]
      · have hne : getNode (addNode g nm.1 nm.2) k = getNode g k :=
          lookupA_setA_ne _ _ _ _ hk
        rw [hne]
        simp [hk]

theorem rootEdgesFold_spec (s : String) (deps : List (String × String)) :
    ∀ g : DepGraph,
      getDependencies (deps.foldl (fun g nr => addEdge g s nr.1 nr.2) g) s =
        getDependencies g s ++ deps.map (fun nr => (⟨nr.1, nr.2⟩ : Edge)) ∧
      (∀ k, k ≠ s →
        getDependencies (deps.foldl (fun g nr => addEdge g s nr.1 nr.2) g) k =
          getDependencies g k) ∧
      (deps.foldl (fun g nr => addEdge g s nr.1 nr.2) g).nodes = g.nodes := by
  induction deps with
  | nil => intro g; exact ⟨by simp, fun k _ => rfl, rfl⟩
  | cons nr tl ih =>
      intro g
      obtain ⟨ha, hb, hc⟩ := ih (addEdge g s nr.1 nr.2)
      refine ⟨?_, ?_, ?_⟩
      · rw [List.foldl_cons, ha, getDependencies_addEdge_self]
        simp [List.append_assoc]
      · intro k hk
        rw [List.foldl_cons, hb k hk, getDependencies_addEdge_ne g s nr.1 nr.2 k hk]
      · rw [List.foldl_cons, hc]
        rfl

theorem transFold_nodes (l : List (String × Metadata)) :
    ∀ g : DepGraph,
      (l.foldl (fun g nm =>
        nm.2.dependencies.foldl (fun g dr => addEdge g nm.1 dr.1 dr.2) g) g).nodes =
        g.nodes := by
  induction l with
  | nil => intro g; rfl
  | cons nm tl ih =>
      intro g
      rw [List.foldl_cons, ih]
      exact (rootEdgesFold_spec nm.1 nm.2.dependencies g).2.2

theorem transFold_root_edges (l : List (String × Metadata)) :
    ∀ g : DepGraph, (∀ nm ∈ l, nm.1 ≠ "__root__") →
      getDependencies (l.foldl (fun g nm =>
        nm.2.dependencies.foldl (fun g dr => addEdge g nm.1 dr.1 dr.2) g) g)
        "__root__" = getDependencies g "__root__" := by
  induction l with
  | nil => intro g _; rfl
  | cons nm tl ih =>
      intro g hr
      have hnm : nm.1 ≠ "__root__" := hr nm (List.mem_cons_self nm tl)
      have htl : ∀ x ∈ tl, x.1 ≠ "__root__" :=
        fun x hx => hr x (List.mem_cons_of_mem nm hx)
      rw [List.foldl_cons, ih _ htl]
      exact (rootEdgesFold_spec nm.1 nm.2.dependencies g).2.1 "__root__" (Ne.symm hnm)

theorem getNode_congr_nodes {g g' : DepGraph} (h : g.nodes = g'.nodes) (k : String) :
    getNode g k = getNode g' k := by
  rw [getNode, getNode, h]

theorem getDependencies_congr_edges {g g' : DepGraph} (h : g.edges = g'.edges)
    (k : String) : getDependencies g k = getDependencies g' k := by
  rw [getDependencies, getDependencies, h]

theorem mem_keys_spreadMerge (xs ys : List (String × String)) (k : String) :
    k ∈ (spreadMerge xs ys).map Prod.fst ↔
      (k ∈ xs.map Prod.fst ∨ k ∈ ys.map Prod.fst) := by
  simp only [spreadMerge, List.map_append, List.mem_append, List.map_map,
    List.mem_map, Function.comp, List.mem_filter, decide_eq_true_eq]
  constructor
  · rintro (⟨p, hp, hk⟩ | ⟨p, ⟨hp, hnot⟩, hk⟩)
    · exact Or.inl ⟨p, hp, hk⟩
    · exact Or.inr ⟨p, hp, hk⟩
  · rintro (⟨p, hp, hk⟩ | ⟨p, hp, hk⟩)
    · exact Or.inl ⟨p, hp, hk⟩
    · by_cases hx : ∃ q ∈ xs, q.1 = k
      · obtain ⟨q, hq, hkq⟩ := hx
        exact Or.inl ⟨q, hq, hkq⟩
      · refine Or.inr ⟨p, ⟨hp, ?_⟩, hk⟩
        intro hmem
        obtain ⟨q, hq, hkq⟩ := hmem
        rw [hk] at hkq
        exact hx ⟨q, hq, hkq⟩

theorem buildFromProject_nodes_isSome (pd : ProjectData) (k : String) :
    (getNode (buildFromProject pd) k).isSome = true ↔
      (k = "__root__" ∨ k ∈ pd.installed.map Prod.fst) := by
  simp only [buildFromProject]
  rw [getNode_congr_nodes (transFold_nodes pd.installed _) k]
  rw [getNode_congr_nodes ((rootEdgesFold_spec "__root__" pd.dependencies.all _).2.2) k]
  rw [getNode_nodesFold_isSome]
  by_cases hk : k = "__root__"
  · subst hk
    have hself : getNode (addNode {} "__root__"
        { version := pd.metadata.version, engines := pd.metadata.engines,
          type := pd.metadata.type }) "__root__" =
        some (mkNode "__root__"
          { version := pd.metadata.version, engines := pd.metadata.engines,
            type := pd.metadata.type }) := lookupA_setA_self _ _ _
    simp [hself]
  · have hne : getNode (addNode {} "__root__"
        { version := pd.metadata.version, engines := pd.metadata.engines,
          type := pd.metadata.type }) k = getNode {} k :=
      lookupA_setA_ne _ _ _ _ hk
    rw [hne]
    simp [hk, getNode, lookupA]

theorem buildFromProject_root_node (pd : ProjectData)
    (hroot : "__root__" ∉ pd.installed.map Prod.fst) :
    getNode (buildFromProject pd) "__root__" =
      some (mkNode "__root__"
        { version := pd.metadata.version, engines := pd.metadata.engines,
          type := pd.metadata.type }) := by
  simp only [buildFromProject]
  rw [getNode_congr_nodes (transFold_nodes pd.installed _) _]
  rw [getNode_congr_nodes ((rootEdgesFold_spec "__root__" pd.dependencies.all _).2.2) _]
  rw [getNode_nodesFold_of_not_mem pd.installed _ "__root__" hroot]
  exact lookupA_setA_self _ _ _

theorem buildFromProject_root_edges (pd : ProjectData)
    (hroot : "__root__" ∉ pd.installed.map Prod.fst) :
    getDependencies (buildFromProject pd) "__root__" =
      pd.dependencies.all.map (fun nr => (⟨nr.1, nr.2⟩ : Edge)) := by
  have hIns : ∀ nm ∈ pd.installed, nm.1 ≠ "__root__" := by
    intro nm hnm heq
    apply hroot
    rw [← heq]
    exact List.mem_map.mpr ⟨nm, hnm, rfl⟩
  simp only [buildFromProject]
  rw [transFold_root_edges pd.installed _ hIns]
  rw [(rootEdgesFold_spec "__root__" pd.dependencies.all _).1]
  rw [getDependencies_congr_edges (nodesFold_edges pd.installed _) "__root__"]
  simp [getDependencies, addNode, lookupA]

/-- C3 (amended): provided no installed package is literally named
`__root__` (an installed entry of that name would overwrite the synthetic
root node and append its declared dependencies to the root's edge list),
`buildFromProject` produces a graph whose node set is exactly the synthetic
root plus one node per key of `installed`, whose root node carries the
project's version, engines and (defaulted) module type, and whose root
edge list is exactly one edge per entry of `dependencies.all`, in mapping
order; zero declared dependencies give a root with zero outgoing edges and
`getStats().directDependencies = 0`; and `extractDependencies` merges
exactly the `dependencies`/`devDependencies`/`optionalDependencies` keys
into `all`, excluding `peerDependencies`. -/
theorem buildFromProject_graph_shape (pd : ProjectData)
    (hroot : "__root__" ∉ pd.installed.map Prod.fst) :
    (∀ k, (getNode (buildFromProject pd) k).isSome = true ↔
      (k = "__root__" ∨ k ∈ pd.installed.map Prod.fst)) ∧
    (getNode (buildFromProject pd) "__root__" =
      some (mkNode "__root__"
        { version := pd.metadata.version, engines := pd.metadata.engines,
          type := pd.metadata.type })) ∧
    (getDependencies (buildFromProject pd) "__root__" =
      pd.dependencies.all.map (fun nr => (⟨nr.1, nr.2⟩ : Edge))) ∧
    (pd.dependencies.all = [] →
      getDependencies (buildFromProject pd) "__root__" = [] ∧
      (getStats (buildFromProject pd)).directDependencies = 0) ∧
    (∀ (dependencies devDependencies peerDependencies optionalDependencies :
        List (String × String)) (k : String),
      k ∈ (extractDependencies dependencies devDependencies peerDependencies
          optionalDependencies).all.map Prod.fst ↔
        (k ∈ dependencies.map Prod.fst ∨ k ∈ devDependencies.map Prod.fst ∨
          k ∈ optionalDependencies.map Prod.fst)) := by
  refine ⟨buildFromProject_nodes_isSome pd, buildFromProject_root_node pd hroot,
    buildFromProject_root_edges pd hroot, ?_, ?_⟩
  · intro hall
    have h0 : getDependencies (buildFromProject pd) "__root__" = [] := by
      rw [buildFromProject_root_edges pd hroot, hall]
      rfl
    refine ⟨h0, ?_⟩
    simp [getStats, h0]
  · intro d dv p o k
    simp only [extractDependencies]
    rw [mem_keys_spreadMerge, mem_keys_spreadMerge]
    tauto

/-- C3 counterexample: for the project data `pdRootClash` — zero declared
dependencies but an installed entry literally named `__root__` with its own
`dependencies` — the claim is false as stated for every projectData input:
the root edge list has one edge although `dependencies.all` is empty
(`directDependencies = 1`, not `0`), and the root node no longer carries
the project's version. -/
theorem buildFromProject_root_clash_counterexample :
    pdRootClash.dependencies.all = [] ∧
    getDependencies (buildFromProject pdRootClash) "__root__" = [⟨"x", "1.0.0"⟩] ∧
    (getStats (buildFromProject pdRootClash)).directDependencies = 1 ∧
    getNode (buildFromProject pdRootClash) "__root__" ≠
      some (mkNode "__root__"
        { version := pdRootClash.metadata.version,
          engines := pdRootClash.metadata.engines,
          type := pdRootClash.metadata.type }) := by
  decide

theorem buildFromProject_graph_shape_witness :
    getDependencies (buildFromProject pdDemo) "__root__" =
      [⟨"x", "^1.0.0"⟩, ⟨"y", "^2.0.0"⟩] ∧
    (getNode (buildFromProject pdDemo) "x").isSome = true ∧
    getDependencies (buildFromProject pdNoDeps) "__root__" = [] ∧
    (getStats (buildFromProject pdNoDeps)).directDependencies = 0 := by
  have h1 := buildFromProject_graph_shape pdDemo (by decide)
  have h2 := buildFromProject_graph_shape pdNoDeps (by decide)
  refine ⟨?_, (h1.1 "x").mpr (Or.inr (by decide)), (h2.2.2.2.1 rfl).1,
    (h2.2.2.2.1 rfl).2⟩
  rw [h1.2.2.1]
  rfl

end Compatify
